import Mathlib

set_option autoImplicit false

/-!
Shallow embedding of the member-resolution core of `typed-jni-rs`
(`src/jni/src/resolver.rs`): the per-slot LRU member cache, the lock-free
slot pool (modelled sequentially as a heap of slots plus a head pointer),
the generic `find_member` resolver, the method/field resolution wrappers,
and the method signature builder.

Modelling conventions:
- raw pointers (`*const ()`, `jmethodID`, weak/strong JNI references) are
  `Nat` addresses;
- a `&'static str` member name is a pair of its address (`ptr`, compared by
  `as_ptr()` in the code) and its contents (`content`, used by `CString::new`);
- the `uluru::LRUCache` inside a slot is a `List Entry` in recency order
  (head = most recently used); `find` moves the first match to the front,
  `insert` pushes at the front and drops the last element when full;
- `CString::new(..).unwrap()` panics are reified as `Option.none` results;
- probe closures return, besides their `Result`, a `Nat` counting the
  host-runtime lookups (`ctx.find_method` / `ctx.find_field`) they perform.
-/

/-- Raw JNI strong reference (e.g. a class), modelled as an address. -/
abbrev Ref := Nat

/-- Weak JNI reference produced by `downgrade_weak`. -/
abbrev Weak := Nat

/-- Opaque member handle (`*const ()` holding a `jmethodID`/`jfieldID`). -/
abbrev Handle := Nat

/-- A pending managed-runtime exception (`LocalObject<Throwable>`), opaque. -/
abbrev Throwable := Nat

/-- A `&'static str` member name: its address (`as_ptr()`) and contents. -/
structure MemberName where
  ptr : Nat
  content : String
  deriving DecidableEq

/-- The ambient JNI `Context`: identity comparison, weak downgrade, and the
host-runtime lookup primitives (each taking NUL-validated C strings). -/
structure Context where
  isSameObject : Option Weak → Option Ref → Bool
  downgrade : Ref → Weak
  findMethod : Ref → List Char → List Char → Except Throwable Handle
  findField : Ref → List Char → List Char → Except Throwable Handle

/-- One cached resolution (`cache::Entry` in `resolver.rs`). -/
structure Entry where
  class_ : Weak
  types_id : Nat
  name : Nat
  member : Handle
  deriving DecidableEq

/-- `MAX_MEMBER_CACHE_PER_SLOT` in `resolver.rs`. -/
def MAX_MEMBER_CACHE_PER_SLOT : Nat := 128

/-- One cache shard (`cache::Slot`): an LRU entry list plus the intrusive
free-list link (`next : *mut Slot`, `none` = null). -/
structure Slot where
  entries : List Entry
  next : Option Nat
  deriving DecidableEq

/-- `uluru::LRUCache::find`: first entry (in recency order) satisfying `p`,
moved to the front; the rest keep their relative order. Returns the found
entry and the reordered list. -/
def lruFind (p : Entry → Bool) (l : List Entry) : Option Entry × List Entry :=
  match l.find? p with
  | none => (none, l)
  | some e => (some e, e :: l.eraseP p)

/-- `uluru::LRUCache::insert`: push at the front; when the cache already
holds `cap` entries, the back (least-recently-used) entry is dropped. -/
def lruInsert (cap : Nat) (e : Entry) (l : List Entry) : List Entry :=
  if l.length < cap then e :: l else e :: l.dropLast

/-- The match predicate of `find_member`:
`e.types_id == types_id && name.as_ptr() == e.name.as_ptr() &&
 ctx.is_same_object(Some(&e.class), Some(class))`. -/
def memberPred (ctx : Context) (cl : Ref) (name : MemberName) (typesId : Nat)
    (e : Entry) : Bool :=
  e.types_id == typesId && name.ptr == e.name &&
    ctx.isSameObject (some e.class_) (some cl)

/-- The body of `cache::find_member` acting on an already-leased slot.
`probe` is the caller's closure `find`; it returns an optional
`Result<(M, *const ())>` (`none` = the closure panicked) together with the
number of host-runtime lookups it performed. -/
def find_member_slot {M : Type} (ctx : Context) (cl : Ref) (name : MemberName)
    (typesId : Nat)
    (probe : Option Handle → Option (Except Throwable (M × Handle)) × Nat)
    (slot : Slot) : Option (Except Throwable M) × Slot × Nat :=
  match lruFind (memberPred ctx cl name typesId) slot.entries with
  | (some e, l) =>
    let pr := probe (some e.member)
    (Option.map (Except.map Prod.fst) pr.1, { slot with entries := l }, pr.2)
  | (none, l) =>
    let pr := probe none
    match pr.1 with
    | none => (none, { slot with entries := l }, pr.2)
    | some (Except.error t) =>
      (some (Except.error t), { slot with entries := l }, pr.2)
    | some (Except.ok mh) =>
      (some (Except.ok mh.1),
       { slot with entries := (lruInsert MAX_MEMBER_CACHE_PER_SLOT
          (Entry.mk (ctx.downgrade cl) typesId name.ptr mh.2) l) },
       pr.2)

/-- The slot pool: the heap of all slots (`store`, indexed by address), the
`SLOTS` head pointer, and a fresh-address counter modelling `Box::leak`
allocation. -/
structure Pool where
  store : Nat → Slot
  head : Option Nat
  fresh : Nat

/-- Write one slot into the heap. -/
def storeUpdate (a : Nat) (s : Slot) (f : Nat → Slot) : Nat → Slot :=
  fun b => if b = a then s else f b

/-- `get_or_alloc_slot`, sequential semantics: pop the free-list head
(clearing its link), or allocate a fresh slot with an empty cache and null
link when the list is observed empty. Returns the leased address. -/
def get_or_alloc_slot (pool : Pool) : Nat × Pool :=
  match pool.head with
  | none =>
    (pool.fresh,
     { store := storeUpdate pool.fresh { entries := [], next := none } pool.store,
       head := none, fresh := pool.fresh + 1 })
  | some a =>
    let s := pool.store a
    (a, { store := storeUpdate a { s with next := none } pool.store,
          head := s.next, fresh := pool.fresh })

/-- `put_slot`: link the slot to the current head and push it. `s` is the
(possibly mutated) slot being returned, living at address `a`. -/
def put_slot (a : Nat) (s : Slot) (pool : Pool) : Pool :=
  { store := storeUpdate a { s with next := pool.head } pool.store,
    head := some a, fresh := pool.fresh }

/-- `use_a_slot`: lease a slot, run `f` on it (obtaining the mutated slot),
and unconditionally release it. -/
def use_a_slot {R : Type} (f : Slot → R × Slot) (pool : Pool) : R × Pool :=
  let ap := get_or_alloc_slot pool
  let rs := f (ap.2.store ap.1)
  (rs.1, put_slot ap.1 rs.2 ap.2)

/-- `cache::find_member` including the slot lease/release. -/
def find_member_pooled {M : Type} (ctx : Context) (cl : Ref) (name : MemberName)
    (typesId : Nat)
    (probe : Option Handle → Option (Except Throwable (M × Handle)) × Nat)
    (pool : Pool) : (Option (Except Throwable M) × Nat) × Pool :=
  use_a_slot (fun slot =>
    let r := find_member_slot ctx cl name typesId probe slot
    ((r.1, r.2.2), r.2.1)) pool

/-- The `ArgsSignature` `Display` impl: format every argument descriptor in
order into the accumulated output. -/
def argsSignatureFmt (args : List String) : String :=
  args.foldl (fun acc s => acc ++ s) ""

/-- `method_signature_of`: `format!("({}){}", ArgsSignature(args), ret)`. -/
def method_signature_of (args : List String) (ret : String) : String :=
  "(" ++ argsSignatureFmt args ++ ")" ++ ret

/-- `CString::new`: fails (→ `unwrap` panics) iff the string contains a NUL
byte; otherwise yields the validated character data. -/
def cstringNew (s : String) : Option (List Char) :=
  if s.data.contains (Char.ofNat 0) then none else some s.data

/-- The probe closure `find_method` passes to `cache::find_member`: on a
cached raw handle, `Method::from_raw(ptr)` (no host lookup); otherwise a full
`ctx.find_method` with NUL-validated name and rendered signature. `Method` is
a transparent wrapper over its raw handle, so `from_raw`/`into_raw` are the
identity here. -/
def methodProbe (ctx : Context) (cl : Ref) (name : MemberName) (sig : String) :
    Option Handle → Option (Except Throwable (Handle × Handle)) × Nat
  | some ptr => (some (Except.ok (ptr, ptr)), 0)
  | none =>
    match cstringNew name.content, cstringNew sig with
    | some cn, some cs =>
      match ctx.findMethod cl cn cs with
      | Except.ok m => (some (Except.ok (m, m)), 1)
      | Except.error t => (some (Except.error t), 1)
    | _, _ => (none, 0)

/-- The probe closure `find_field` passes to `cache::find_member`. -/
def fieldProbe (ctx : Context) (cl : Ref) (name : MemberName) (sig : String) :
    Option Handle → Option (Except Throwable (Handle × Handle)) × Nat
  | some ptr => (some (Except.ok (ptr, ptr)), 0)
  | none =>
    match cstringNew name.content, cstringNew sig with
    | some cn, some cs =>
      match ctx.findField cl cn cs with
      | Except.ok f => (some (Except.ok (f, f)), 1)
      | Except.error t => (some (Except.error t), 1)
    | _, _ => (none, 0)

/-- `find_method` with the `cache` feature, acting on a leased slot.
`typesId` is the per-monomorphization address `find_member::<C, M, F>`. -/
def find_method_cached (ctx : Context) (cl : Ref) (name : MemberName)
    (argSigs : List String) (retSig : String) (typesId : Nat) (slot : Slot) :
    Option (Except Throwable Handle) × Slot × Nat :=
  find_member_slot ctx cl name typesId
    (methodProbe ctx cl name (method_signature_of argSigs retSig)) slot

/-- `find_field` with the `cache` feature, acting on a leased slot.
`sig` is `T::SIGNATURE.to_string()`. -/
def find_field_cached (ctx : Context) (cl : Ref) (name : MemberName)
    (sig : String) (typesId : Nat) (slot : Slot) :
    Option (Except Throwable Handle) × Slot × Nat :=
  find_member_slot ctx cl name typesId (fieldProbe ctx cl name sig) slot

/-- `find_method` with the `cache` feature disabled: a direct
`ctx.find_method` call, no slot pool. Also counts host lookups. -/
def find_method_nocache (ctx : Context) (cl : Ref) (name : MemberName)
    (argSigs : List String) (retSig : String) :
    Option (Except Throwable Handle) × Nat :=
  match cstringNew name.content,
        cstringNew (method_signature_of argSigs retSig) with
  | some cn, some cs => (some (ctx.findMethod cl cn cs), 1)
  | _, _ => (none, 0)

/-- `find_field` with the `cache` feature disabled. -/
def find_field_nocache (ctx : Context) (cl : Ref) (name : MemberName)
    (sig : String) : Option (Except Throwable Handle) × Nat :=
  match cstringNew name.content, cstringNew sig with
  | some cn, some cs => (some (ctx.findField cl cn cs), 1)
  | _, _ => (none, 0)

/-- Modelled from the spec (§4.2): the argument block is the concatenation of
every argument descriptor in declaration order. Used to compare the
`Display`-loop implementation against the spec's words. -/
def specConcatAll : List String → String
  | [] => ""
  | s :: rest => s ++ specConcatAll rest

/-- A concrete context for instantiating the theorems: identity comparison of
addresses, identity downgrade, and host lookups returning fixed handles. -/
def ctx0 : Context :=
  { isSameObject := fun w r => w == r,
    downgrade := fun r => r,
    findMethod := fun _ _ _ => Except.ok 42,
    findField := fun _ _ _ => Except.ok 43 }

/-- A concrete member name with NUL-free contents. -/
def name0 : MemberName := MemberName.mk 10 "foo"

/-- A concrete member name whose contents hold an interior NUL byte. -/
def nameBad : MemberName := MemberName.mk 11 "a\x00b"

/-- A concrete cached entry matching `name0` under `ctx0` for class 1 and
static token 5. -/
def entry0 : Entry := Entry.mk 1 5 10 99

/-- A concrete empty pool. -/
def pool0 : Pool := Pool.mk (fun _ => Slot.mk [] none) none 0

/-- A concrete probe that always succeeds with member handle 77 after one
host lookup. -/
def probeOk77 : Option Handle → Option (Except Throwable (Nat × Handle)) × Nat :=
  fun _ => (some (Except.ok (77, 77)), 1)

/-- A concrete probe that always fails with pending exception 7 after one
host lookup. -/
def probeFail7 : Option Handle → Option (Except Throwable (Nat × Handle)) × Nat :=
  fun _ => (some (Except.error 7), 1)

theorem lruFind_none_of (p : Entry → Bool) (l : List Entry)
    (h : ∀ e ∈ l, p e = false) : lruFind p l = (none, l) := by
  have hf : l.find? p = none := by
    rw [List.find?_eq_none]
    intro x hx
    simp [h x hx]
  simp [lruFind, hf]

theorem lruFind_fst_some (p : Entry → Bool) (l : List Entry) (e : Entry)
    (h : (lruFind p l).1 = some e) : l.find? p = some e := by
  unfold lruFind at h
  cases hf : l.find? p with
  | none => rw [hf] at h; simp at h
  | some x => rw [hf] at h; simp at h; rw [h]

theorem lruFind_mem_pred (p : Entry → Bool) (l : List Entry) (e : Entry)
    (h : (lruFind p l).1 = some e) : e ∈ l ∧ p e = true := by
  have hf := lruFind_fst_some p l e h
  exact ⟨List.mem_of_find?_eq_some hf, List.find?_some hf⟩

theorem cons_eraseP_perm (p : Entry → Bool) :
    ∀ (l : List Entry) (e : Entry), l.find? p = some e →
      (e :: l.eraseP p).Perm l := by
  intro l
  induction l with
  | nil => intro e h; simp at h
  | cons a t ih =>
    intro e h
    by_cases hp : p a
    · rw [List.find?_cons_of_pos _ hp] at h
      cases h
      rw [List.eraseP_cons_of_pos hp]
    · rw [List.find?_cons_of_neg _ (by simp [hp])] at h
      rw [List.eraseP_cons_of_neg (by simp [hp])]
      exact (List.Perm.swap a e _).trans ((ih e h).cons a)

theorem lruFind_perm (p : Entry → Bool) (l : List Entry) (e : Entry)
    (l2 : List Entry) (h : lruFind p l = (some e, l2)) : l2.Perm l := by
  unfold lruFind at h
  cases hf : l.find? p with
  | none => rw [hf] at h; simp at h
  | some x =>
    rw [hf] at h
    simp at h
    obtain ⟨rfl, rfl⟩ := h
    exact cons_eraseP_perm p l x hf

theorem argsSignatureFmt_aux :
    ∀ (l : List String) (acc : String),
      l.foldl (fun a s => a ++ s) acc = acc ++ specConcatAll l := by
  intro l
  induction l with
  | nil => intro acc; simp [specConcatAll]
  | cons s t ih =>
    intro acc
    simp only [List.foldl_cons, specConcatAll, ih, String.append_assoc]

/-- C5: `method_signature_of(args, ret)` is a pure total function equal to
the concatenation of every argument descriptor in declaration order, wrapped
in parentheses, followed by the return descriptor; in particular it maps
`(["I", "F", "Ljava/lang/String;"], "V")` to `"(IFLjava/lang/String;)V"` and
`([], "I")` to `"()I"`. -/
theorem method_signature_of_renders :
    (∀ (args : List String) (ret : String),
      method_signature_of args ret = "(" ++ specConcatAll args ++ ")" ++ ret)
    ∧ method_signature_of ["I", "F", "Ljava/lang/String;"] "V" =
        "(IFLjava/lang/String;)V"
    ∧ method_signature_of [] "I" = "()I" := by
  refine ⟨fun args ret => ?_, rfl, rfl⟩
  simp [method_signature_of, argsSignatureFmt, argsSignatureFmt_aux]

/-- C7: the slot pool behaves as a LIFO stack: `get_or_alloc_slot` pops the
free-list head (its successor becoming the new head) with its link cleared,
or allocates a brand-new slot with an empty cache and null link exactly when
the list is observed empty (returned immediately, the head left unchanged);
`put_slot` links the slot to the old head and pushes it, so a lease
immediately following `put_slot` returns the same slot with its link
cleared and restores the previous head. -/
theorem slot_pool_lifo_stack :
    (∀ (store : Nat → Slot) (fr : Nat),
       get_or_alloc_slot (Pool.mk store none fr) =
         (fr, Pool.mk (storeUpdate fr (Slot.mk [] none) store) none (fr + 1)))
    ∧ (∀ (store : Nat → Slot) (fr a : Nat),
       get_or_alloc_slot (Pool.mk store (some a) fr) =
         (a, Pool.mk (storeUpdate a (Slot.mk (store a).entries none) store)
               (store a).next fr))
    ∧ (∀ (pool : Pool) (a : Nat) (s : Slot),
       put_slot a s pool =
         Pool.mk (storeUpdate a (Slot.mk s.entries pool.head) pool.store)
           (some a) pool.fresh)
    ∧ (∀ (pool : Pool) (a : Nat) (s : Slot),
       (get_or_alloc_slot (put_slot a s pool)).1 = a
       ∧ (get_or_alloc_slot (put_slot a s pool)).2.head = pool.head
       ∧ (get_or_alloc_slot (put_slot a s pool)).2.store a =
           Slot.mk s.entries none) := by
  refine ⟨fun store fr => rfl, fun store fr a => rfl, fun pool a s => rfl,
    fun pool a s => ⟨rfl, ?_, ?_⟩⟩
  · simp [get_or_alloc_slot, put_slot, storeUpdate]
  · simp [get_or_alloc_slot, put_slot, storeUpdate]

theorem lruFind_none_snd (p : Entry → Bool) (l : List Entry)
    (h : (lruFind p l).1 = none) : lruFind p l = (none, l) := by
  unfold lruFind at h ⊢
  cases hf : l.find? p with
  | none => rfl
  | some x => rw [hf] at h; simp at h

theorem lruFind_cons_pos (p : Entry → Bool) (e : Entry) (l : List Entry)
    (h : p e = true) : lruFind p (e :: l) = (some e, e :: l) := by
  unfold lruFind
  rw [List.find?_cons_of_pos _ h, List.eraseP_cons_of_pos h]

/-- C1: a cached entry is returned as a hit only if its `types_id` equals the
static token, its stored name pointer equals the caller's name pointer, and
`is_same_object` holds between the stored weak owning-type reference and the
caller's type reference; a slot in which every entry fails some of these
checks (in particular one whose owning type was collected or replaced, making
`is_same_object` false) produces no hit and `find_member` proceeds as a
miss. -/
theorem find_member_cache_hit_validity {M : Type} (ctx : Context) (cl : Ref)
    (name : MemberName) (typesId : Nat) (slot slot0 : Slot) (e : Entry)
    (probe : Option Handle → Option (Except Throwable (M × Handle)) × Nat)
    (hfound : (lruFind (memberPred ctx cl name typesId) slot.entries).1 = some e)
    (hnone : ∀ e2 ∈ slot0.entries, memberPred ctx cl name typesId e2 = false) :
    (e ∈ slot.entries ∧ e.types_id = typesId ∧ name.ptr = e.name
      ∧ ctx.isSameObject (some e.class_) (some cl) = true)
    ∧ find_member_slot ctx cl name typesId probe slot0 =
        (match (probe none).1 with
         | none => (none, slot0, (probe none).2)
         | some (Except.error t) =>
            (some (Except.error t), slot0, (probe none).2)
         | some (Except.ok mh) =>
            (some (Except.ok mh.1),
             { slot0 with entries := (lruInsert MAX_MEMBER_CACHE_PER_SLOT
                (Entry.mk (ctx.downgrade cl) typesId name.ptr mh.2)
                slot0.entries) },
             (probe none).2)) := by
  constructor
  · obtain ⟨hmem, hp⟩ := lruFind_mem_pred _ _ _ hfound
    simp only [memberPred, Bool.and_eq_true, beq_iff_eq] at hp
    exact ⟨hmem, hp.1.1, hp.1.2, hp.2⟩
  · have hl := lruFind_none_of (memberPred ctx cl name typesId) slot0.entries hnone
    obtain ⟨es, nx⟩ := slot0
    unfold find_member_slot
    rw [hl]

/-- Witness for C1 at a concrete context: the slot `[entry0]` yields a hit
whose entry passes all three checks, and a slot whose single entry points at
a different live object (class 2 instead of class 1) yields a miss that
performs the full lookup and inserts a fresh entry. -/
theorem find_member_cache_hit_validity_witness :
    ((lruFind (memberPred ctx0 1 name0 5) (Slot.mk [entry0] none).entries).1 =
      some entry0)
    ∧ (∀ e2 ∈ (Slot.mk [Entry.mk 2 5 10 99] none).entries,
        memberPred ctx0 1 name0 5 e2 = false)
    ∧ (entry0 ∈ (Slot.mk [entry0] none).entries ∧ entry0.types_id = 5
        ∧ name0.ptr = entry0.name
        ∧ ctx0.isSameObject (some entry0.class_) (some 1) = true)
    ∧ find_member_slot ctx0 1 name0 5 probeOk77
        (Slot.mk [Entry.mk 2 5 10 99] none) =
      (some (Except.ok 77),
       Slot.mk [Entry.mk 1 5 10 77, Entry.mk 2 5 10 99] none, 1) := by
  have h := find_member_cache_hit_validity ctx0 1 name0 5 (Slot.mk [entry0] none)
    (Slot.mk [Entry.mk 2 5 10 99] none) entry0 probeOk77
    (by decide) (by decide)
  refine ⟨by decide, by decide, h.1, ?_⟩
  rw [h.2]
  rfl

/-- C10: on a cache hit, `find_member` leaves the set of entries in the
leased slot unchanged — the resulting entry list is exactly the reordered
list produced by the LRU touch, which is a permutation of the original
entries (no insertion, no eviction) — and this holds for every probe
outcome, including failure. -/
theorem find_member_hit_frame {M : Type} (ctx : Context) (cl : Ref)
    (name : MemberName) (typesId : Nat)
    (probe : Option Handle → Option (Except Throwable (M × Handle)) × Nat)
    (slot : Slot) (e : Entry) (l : List Entry)
    (hhit : lruFind (memberPred ctx cl name typesId) slot.entries = (some e, l)) :
    (find_member_slot ctx cl name typesId probe slot).2.1 =
      Slot.mk l slot.next
    ∧ l.Perm slot.entries := by
  constructor
  · unfold find_member_slot
    rw [hhit]
  · exact lruFind_perm _ _ _ _ hhit

/-- Witness for C10: a hit on the two-entry slot `[other, entry0]` under a
probe that fails moves `entry0` to the front but inserts and evicts
nothing. -/
theorem find_member_hit_frame_witness :
    lruFind (memberPred ctx0 1 name0 5)
        (Slot.mk [Entry.mk 3 6 11 98, entry0] none).entries =
      (some entry0, [entry0, Entry.mk 3 6 11 98])
    ∧ ((find_member_slot ctx0 1 name0 5 probeFail7
          (Slot.mk [Entry.mk 3 6 11 98, entry0] none)).2.1 =
        Slot.mk [entry0, Entry.mk 3 6 11 98] none
       ∧ [entry0, Entry.mk 3 6 11 98].Perm [Entry.mk 3 6 11 98, entry0]) :=
  ⟨by decide,
   find_member_hit_frame ctx0 1 name0 5 probeFail7
     (Slot.mk [Entry.mk 3 6 11 98, entry0] none) entry0
     [entry0, Entry.mk 3 6 11 98] (by decide)⟩

theorem lruInsert_eq_cons (cap : Nat) (e : Entry) (l : List Entry) :
    lruInsert cap e l = e :: (if l.length < cap then l else l.dropLast) := by
  unfold lruInsert
  split <;> rfl

/-- C2: on a cache hit, the probe is invoked once with the cached raw handle
and its result returned unchanged with no host-runtime lookup (lookup count
0); consequently after a successful miss has populated the cache, a second
resolution of the same member on the same live object returns the same
handle with lookup count 0. -/
theorem find_member_hit_uses_cached_handle (ctx : Context) (cl : Ref)
    (name : MemberName) (argSigs : List String) (retSig : String)
    (typesId : Nat) (slot slot0 : Slot) (e : Entry) (l : List Entry)
    (cn cs : List Char) (m : Handle)
    (hhit : lruFind (memberPred ctx cl name typesId) slot.entries = (some e, l))
    (hmiss : ∀ e2 ∈ slot0.entries, memberPred ctx cl name typesId e2 = false)
    (hlive : ctx.isSameObject (some (ctx.downgrade cl)) (some cl) = true)
    (hn : cstringNew name.content = some cn)
    (hs : cstringNew (method_signature_of argSigs retSig) = some cs)
    (hfind : ctx.findMethod cl cn cs = Except.ok m) :
    find_method_cached ctx cl name argSigs retSig typesId slot =
      (some (Except.ok e.member), Slot.mk l slot.next, 0)
    ∧ find_method_cached ctx cl name argSigs retSig typesId slot0 =
        (some (Except.ok m),
         Slot.mk (lruInsert MAX_MEMBER_CACHE_PER_SLOT
           (Entry.mk (ctx.downgrade cl) typesId name.ptr m) slot0.entries)
           slot0.next, 1)
    ∧ find_method_cached ctx cl name argSigs retSig typesId
        (Slot.mk (lruInsert MAX_MEMBER_CACHE_PER_SLOT
          (Entry.mk (ctx.downgrade cl) typesId name.ptr m) slot0.entries)
          slot0.next) =
        (some (Except.ok m),
         Slot.mk (lruInsert MAX_MEMBER_CACHE_PER_SLOT
           (Entry.mk (ctx.downgrade cl) typesId name.ptr m) slot0.entries)
           slot0.next, 0) := by
  refine ⟨?_, ?_, ?_⟩
  · unfold find_method_cached find_member_slot
    rw [hhit]
    rfl
  · have hl := lruFind_none_of (memberPred ctx cl name typesId)
      slot0.entries hmiss
    unfold find_method_cached find_member_slot
    rw [hl]
    simp only [methodProbe, hn, hs, hfind]
  · have hpred : memberPred ctx cl name typesId
        (Entry.mk (ctx.downgrade cl) typesId name.ptr m) = true := by
      simp [memberPred, hlive]
    have hcons := lruInsert_eq_cons MAX_MEMBER_CACHE_PER_SLOT
      (Entry.mk (ctx.downgrade cl) typesId name.ptr m) slot0.entries
    unfold find_method_cached find_member_slot
    simp only [hcons]
    rw [lruFind_cons_pos _ _ _ hpred]
    rfl

/-- Witness for C2: under `ctx0`, a hit on `[entry0]` returns the cached
handle 99 with zero lookups; a miss on the empty slot performs one lookup
returning handle 42 and caches it; the immediately following second call
hits the new entry with zero lookups. -/
theorem find_member_hit_uses_cached_handle_witness :
    find_method_cached ctx0 1 name0 [] "I" 5 (Slot.mk [entry0] none) =
      (some (Except.ok 99), Slot.mk [entry0] none, 0)
    ∧ find_method_cached ctx0 1 name0 [] "I" 5 (Slot.mk [] none) =
        (some (Except.ok 42), Slot.mk [Entry.mk 1 5 10 42] none, 1)
    ∧ find_method_cached ctx0 1 name0 [] "I" 5
        (Slot.mk [Entry.mk 1 5 10 42] none) =
        (some (Except.ok 42), Slot.mk [Entry.mk 1 5 10 42] none, 0) := by
  have h := find_member_hit_uses_cached_handle ctx0 1 name0 [] "I" 5
    (Slot.mk [entry0] none) (Slot.mk [] none) entry0 [entry0]
    "foo".data "()I".data 42
    (by decide) (by decide) (by decide) (by decide) (by decide) rfl
  exact ⟨h.1, h.2.1, h.2.2⟩

/-- C3: on a miss, the probe is invoked with no cached handle; on success a
new entry holding the downgraded weak class reference, the static token, the
name pointer and the raw handle is inserted into the slot's LRU, evicting
the least-recently-used (last) entry exactly when the slot already holds
`MAX_MEMBER_CACHE_PER_SLOT = 128` entries; an entry evicted this way is
gone from the slot, so a later probe for it finds no match and proceeds as a
fresh lookup. -/
theorem find_member_miss_inserts_and_evicts {M : Type} (ctx : Context)
    (cl : Ref) (name : MemberName) (typesId : Nat)
    (probe : Option Handle → Option (Except Throwable (M × Handle)) × Nat)
    (slot : Slot) (m : M) (hdl : Handle)
    (hmiss : ∀ e2 ∈ slot.entries, memberPred ctx cl name typesId e2 = false)
    (hok : (probe none).1 = some (Except.ok (m, hdl))) :
    MAX_MEMBER_CACHE_PER_SLOT = 128
    ∧ find_member_slot ctx cl name typesId probe slot =
        (some (Except.ok m),
         Slot.mk (lruInsert MAX_MEMBER_CACHE_PER_SLOT
           (Entry.mk (ctx.downgrade cl) typesId name.ptr hdl) slot.entries)
           slot.next,
         (probe none).2)
    ∧ (slot.entries.length < MAX_MEMBER_CACHE_PER_SLOT →
        lruInsert MAX_MEMBER_CACHE_PER_SLOT
            (Entry.mk (ctx.downgrade cl) typesId name.ptr hdl) slot.entries =
          Entry.mk (ctx.downgrade cl) typesId name.ptr hdl :: slot.entries)
    ∧ (MAX_MEMBER_CACHE_PER_SLOT ≤ slot.entries.length →
        lruInsert MAX_MEMBER_CACHE_PER_SLOT
            (Entry.mk (ctx.downgrade cl) typesId name.ptr hdl) slot.entries =
          Entry.mk (ctx.downgrade cl) typesId name.ptr hdl ::
            slot.entries.dropLast)
    ∧ (slot.entries.length = MAX_MEMBER_CACHE_PER_SLOT → slot.entries.Nodup →
        ∀ ev, slot.entries.getLast? = some ev →
          ev ≠ Entry.mk (ctx.downgrade cl) typesId name.ptr hdl →
          ev ∉ lruInsert MAX_MEMBER_CACHE_PER_SLOT
            (Entry.mk (ctx.downgrade cl) typesId name.ptr hdl) slot.entries)
    ∧ (∀ p2 : Entry → Bool,
        (∀ e2 ∈ lruInsert MAX_MEMBER_CACHE_PER_SLOT
            (Entry.mk (ctx.downgrade cl) typesId name.ptr hdl) slot.entries,
          p2 e2 = false) →
        (lruFind p2 (lruInsert MAX_MEMBER_CACHE_PER_SLOT
            (Entry.mk (ctx.downgrade cl) typesId name.ptr hdl)
            slot.entries)).1 = none) := by
  have hl := lruFind_none_of (memberPred ctx cl name typesId)
    slot.entries hmiss
  refine ⟨rfl, ?_, ?_, ?_, ?_, ?_⟩
  · unfold find_member_slot
    rw [hl]
    simp only [hok]
  · intro hlen
    simp [lruInsert, hlen]
  · intro hlen
    have : ¬ slot.entries.length < MAX_MEMBER_CACHE_PER_SLOT := by omega
    simp [lruInsert, this]
  · intro hlen hnd ev hlast hne hmem
    have hnil : slot.entries ≠ [] := by
      intro hcon
      rw [hcon] at hlen
      simp [MAX_MEMBER_CACHE_PER_SLOT] at hlen
    have hsplit : slot.entries.dropLast ++ [ev] = slot.entries := by
      have hg := List.getLast?_eq_getLast slot.entries hnil
      rw [hg] at hlast
      obtain rfl : slot.entries.getLast hnil = ev := by
        exact Option.some_injective _ hlast
      exact List.dropLast_append_getLast hnil
    have hlt : ¬ slot.entries.length < MAX_MEMBER_CACHE_PER_SLOT := by omega
    rw [lruInsert, if_neg hlt] at hmem
    rcases List.mem_cons.mp hmem with hcase | hcase
    · exact hne hcase
    · rw [← hsplit] at hnd
      rcases (List.nodup_append.mp hnd) with ⟨_, _, hdisj⟩
      exact hdisj hcase (by simp)
  · intro p2 h2
    rw [lruFind_none_of p2 _ h2]

/-- Witness for C3: a miss on the empty slot under `ctx0` performs the
lookup and inserts the entry `(weak 1, token 5, name ptr 10, handle 77)` at
the front. -/
theorem find_member_miss_inserts_and_evicts_witness :
    (∀ e2 ∈ (Slot.mk [] none).entries, memberPred ctx0 1 name0 5 e2 = false)
    ∧ (probeOk77 none).1 = some (Except.ok (77, 77))
    ∧ find_member_slot ctx0 1 name0 5 probeOk77 (Slot.mk [] none) =
        (some (Except.ok 77), Slot.mk [Entry.mk 1 5 10 77] none, 1) := by
  have h := find_member_miss_inserts_and_evicts ctx0 1 name0 5 probeOk77
    (Slot.mk [] none) 77 77 (by decide) rfl
  refine ⟨by decide, rfl, ?_⟩
  rw [h.2.1]
  rfl

theorem find_member_slot_fail {M : Type} (ctx : Context) (cl : Ref)
    (name : MemberName) (typesId : Nat)
    (probe : Option Handle → Option (Except Throwable (M × Handle)) × Nat)
    (slot : Slot) (t : Throwable)
    (hfail : ∀ h, (probe h).1 = some (Except.error t)) :
    (find_member_slot ctx cl name typesId probe slot).1 =
      some (Except.error t)
    ∧ (find_member_slot ctx cl name typesId probe slot).2.1.entries.Perm
        slot.entries := by
  unfold find_member_slot
  cases hq : lruFind (memberPred ctx cl name typesId) slot.entries with
  | mk o l =>
    cases o with
    | some e =>
      constructor
      · simp [hfail (some e.member), Except.map]
      · simp only
        exact lruFind_perm _ _ _ _ hq
    | none =>
      have h2 : lruFind (memberPred ctx cl name typesId) slot.entries =
          (none, slot.entries) :=
        lruFind_none_snd _ _ (by rw [hq])
      rw [hq] at h2
      injection h2 with _ h3
      subst h3
      constructor
      · simp [hfail none]
      · simp [hfail none]

/-- C4: when the probe returns a pending-exception failure (on the hit or
the miss path), `find_member` propagates the failure unchanged, inserts no
new cache entry into the leased slot (its entry set is a permutation of what
was leased, identical on the miss path), and the slot is still released:
after the call it is back at the head of the pool's free list. -/
theorem find_member_failure_propagates_and_releases {M : Type} (ctx : Context)
    (cl : Ref) (name : MemberName) (typesId : Nat)
    (probe : Option Handle → Option (Except Throwable (M × Handle)) × Nat)
    (pool : Pool) (t : Throwable)
    (hfail : ∀ h, (probe h).1 = some (Except.error t)) :
    (find_member_pooled ctx cl name typesId probe pool).1.1 =
      some (Except.error t)
    ∧ ((find_member_pooled ctx cl name typesId probe pool).2.store
         (get_or_alloc_slot pool).1).entries.Perm
        ((get_or_alloc_slot pool).2.store (get_or_alloc_slot pool).1).entries
    ∧ (find_member_pooled ctx cl name typesId probe pool).2.head =
        some (get_or_alloc_slot pool).1 := by
  have h := find_member_slot_fail ctx cl name typesId probe
    ((get_or_alloc_slot pool).2.store (get_or_alloc_slot pool).1) t hfail
  refine ⟨?_, ?_, ?_⟩
  · simpa [find_member_pooled, use_a_slot] using h.1
  · simpa [find_member_pooled, use_a_slot, put_slot, storeUpdate] using h.2
  · simp [find_member_pooled, use_a_slot, put_slot]

/-- Witness for C4: on the empty pool with the always-failing probe, the
failure is returned, the (freshly allocated, empty) slot gains no entry, and
it ends up back at the head of the free list. -/
theorem find_member_failure_propagates_and_releases_witness :
    (∀ h, (probeFail7 h).1 = some (Except.error 7))
    ∧ (find_member_pooled ctx0 1 name0 5 probeFail7 pool0).1.1 =
        some (Except.error 7)
    ∧ ((find_member_pooled ctx0 1 name0 5 probeFail7 pool0).2.store
         (get_or_alloc_slot pool0).1).entries.Perm
        ((get_or_alloc_slot pool0).2.store (get_or_alloc_slot pool0).1).entries
    ∧ (find_member_pooled ctx0 1 name0 5 probeFail7 pool0).2.head =
        some (get_or_alloc_slot pool0).1 := by
  have h := find_member_failure_propagates_and_releases ctx0 1 name0 5
    probeFail7 pool0 7 (fun _ => rfl)
  exact ⟨fun _ => rfl, h.1, h.2.1, h.2.2⟩

/-- C6: with the cache feature disabled, `find_method`/`find_field` invoke
the host-runtime lookup directly with the same NUL-validated name and
descriptor strings as the cached miss path — one host lookup per call — and
on a slot with no matching entry the cached path returns the same result
with the same lookup count, so the cache is additive, not load-bearing. -/
theorem cache_disabled_equivalence (ctx : Context) (cl : Ref)
    (name : MemberName) (argSigs : List String) (retSig fieldSig : String)
    (typesId : Nat) (slot : Slot) (cn cm cf : List Char)
    (hmiss : ∀ e2 ∈ slot.entries, memberPred ctx cl name typesId e2 = false)
    (hn : cstringNew name.content = some cn)
    (hm : cstringNew (method_signature_of argSigs retSig) = some cm)
    (hf : cstringNew fieldSig = some cf) :
    find_method_nocache ctx cl name argSigs retSig =
      (some (ctx.findMethod cl cn cm), 1)
    ∧ find_field_nocache ctx cl name fieldSig =
        (some (ctx.findField cl cn cf), 1)
    ∧ (find_method_cached ctx cl name argSigs retSig typesId slot).1 =
        (find_method_nocache ctx cl name argSigs retSig).1
    ∧ (find_method_cached ctx cl name argSigs retSig typesId slot).2.2 =
        (find_method_nocache ctx cl name argSigs retSig).2
    ∧ (find_field_cached ctx cl name fieldSig typesId slot).1 =
        (find_field_nocache ctx cl name fieldSig).1
    ∧ (find_field_cached ctx cl name fieldSig typesId slot).2.2 =
        (find_field_nocache ctx cl name fieldSig).2 := by
  have hl := lruFind_none_of (memberPred ctx cl name typesId)
    slot.entries hmiss
  have hnoc : find_method_nocache ctx cl name argSigs retSig =
      (some (ctx.findMethod cl cn cm), 1) := by
    unfold find_method_nocache
    rw [hn, hm]
  have hnof : find_field_nocache ctx cl name fieldSig =
      (some (ctx.findField cl cn cf), 1) := by
    unfold find_field_nocache
    rw [hn, hf]
  refine ⟨hnoc, hnof, ?_, ?_, ?_, ?_⟩
  · unfold find_method_cached find_member_slot
    rw [hl, hnoc]
    simp only [methodProbe, hn, hm]
    cases hq : ctx.findMethod cl cn cm <;> simp
  · unfold find_method_cached find_member_slot
    rw [hl, hnoc]
    simp only [methodProbe, hn, hm]
    cases hq : ctx.findMethod cl cn cm <;> simp
  · unfold find_field_cached find_member_slot
    rw [hl, hnof]
    simp only [fieldProbe, hn, hf]
    cases hq : ctx.findField cl cn cf <;> simp
  · unfold find_field_cached find_member_slot
    rw [hl, hnof]
    simp only [fieldProbe, hn, hf]
    cases hq : ctx.findField cl cn cf <;> simp

/-- Witness for C6: under `ctx0` with the empty slot, both disabled-path
lookups perform exactly one host call and agree with the cached miss path. -/
theorem cache_disabled_equivalence_witness :
    (∀ e2 ∈ (Slot.mk [] none).entries, memberPred ctx0 1 name0 5 e2 = false)
    ∧ cstringNew name0.content = some "foo".data
    ∧ cstringNew (method_signature_of [] "I") = some "()I".data
    ∧ cstringNew "J" = some "J".data
    ∧ (find_method_nocache ctx0 1 name0 [] "I" =
        (some (ctx0.findMethod 1 "foo".data "()I".data), 1)
       ∧ find_field_nocache ctx0 1 name0 "J" =
          (some (ctx0.findField 1 "foo".data "J".data), 1)
       ∧ (find_method_cached ctx0 1 name0 [] "I" 5 (Slot.mk [] none)).1 =
          (find_method_nocache ctx0 1 name0 [] "I").1
       ∧ (find_method_cached ctx0 1 name0 [] "I" 5 (Slot.mk [] none)).2.2 =
          (find_method_nocache ctx0 1 name0 [] "I").2
       ∧ (find_field_cached ctx0 1 name0 "J" 5 (Slot.mk [] none)).1 =
          (find_field_nocache ctx0 1 name0 "J").1
       ∧ (find_field_cached ctx0 1 name0 "J" 5 (Slot.mk [] none)).2.2 =
          (find_field_nocache ctx0 1 name0 "J").2) :=
  ⟨by decide, by decide, by decide, by decide,
   cache_disabled_equivalence ctx0 1 name0 [] "I" "J" 5 (Slot.mk [] none)
     "foo".data "()I".data "J".data (by decide) (by decide) (by decide)
     (by decide)⟩

theorem find_member_slot_isSome {M : Type} (ctx : Context) (cl : Ref)
    (name : MemberName) (typesId : Nat)
    (probe : Option Handle → Option (Except Throwable (M × Handle)) × Nat)
    (slot : Slot)
    (hnp : ∀ h, ((probe h).1).isSome = true) :
    ((find_member_slot ctx cl name typesId probe slot).1).isSome = true := by
  unfold find_member_slot
  cases hq : lruFind (memberPred ctx cl name typesId) slot.entries with
  | mk o l =>
    cases o with
    | some e =>
      cases hp : (probe (some e.member)).1 with
      | none =>
        have := hnp (some e.member)
        rw [hp] at this
        simp at this
      | some r => simp [hp]
    | none =>
      cases hp : (probe none).1 with
      | none =>
        have := hnp none
        rw [hp] at this
        simp at this
      | some r =>
        cases r with
        | error t => simp [hp]
        | ok mh => simp [hp]

theorem find_member_slot_panic {M : Type} (ctx : Context) (cl : Ref)
    (name : MemberName) (typesId : Nat)
    (probe : Option Handle → Option (Except Throwable (M × Handle)) × Nat)
    (slot : Slot)
    (hmiss : ∀ e2 ∈ slot.entries, memberPred ctx cl name typesId e2 = false)
    (hpanic : (probe none).1 = none) :
    (find_member_slot ctx cl name typesId probe slot).1 = none := by
  unfold find_member_slot
  rw [lruFind_none_of _ _ hmiss]
  simp only [hpanic]

theorem methodProbe_isSome (ctx : Context) (cl : Ref) (name : MemberName)
    (sig : String)
    (hn : name.content.data.contains (Char.ofNat 0) = false)
    (hs : sig.data.contains (Char.ofNat 0) = false) :
    ∀ h, ((methodProbe ctx cl name sig h).1).isSome = true := by
  intro h
  cases h with
  | some ptr => rfl
  | none =>
    simp only [methodProbe, cstringNew, hn, hs, if_false, Bool.false_eq_true,
      if_neg]
    cases ctx.findMethod cl name.content.data sig.data <;> simp

theorem fieldProbe_isSome (ctx : Context) (cl : Ref) (name : MemberName)
    (sig : String)
    (hn : name.content.data.contains (Char.ofNat 0) = false)
    (hs : sig.data.contains (Char.ofNat 0) = false) :
    ∀ h, ((fieldProbe ctx cl name sig h).1).isSome = true := by
  intro h
  cases h with
  | some ptr => rfl
  | none =>
    simp only [fieldProbe, cstringNew, hn, hs, if_false, Bool.false_eq_true,
      if_neg]
    cases ctx.findField cl name.content.data sig.data <;> simp

/-- C9: when the member name (and, for methods, the rendered descriptor;
for fields, the type descriptor) contains no NUL byte, the
`CString::new(..).unwrap()` calls cannot panic — every `find_method` /
`find_field` call, cached or not, returns a value; a name containing an
interior NUL byte instead makes the lookup path panic (modelled as `none`)
rather than return a pending-exception error. -/
theorem cstring_panic_conditions (ctx : Context) (cl : Ref)
    (name nameN : MemberName) (argSigs : List String)
    (retSig fieldSig : String) (typesId : Nat) (slot slot0 : Slot)
    (hn : name.content.data.contains (Char.ofNat 0) = false)
    (hs : (method_signature_of argSigs retSig).data.contains
      (Char.ofNat 0) = false)
    (hfs : fieldSig.data.contains (Char.ofNat 0) = false)
    (hbad : nameN.content.data.contains (Char.ofNat 0) = true)
    (hmiss0 : ∀ e2 ∈ slot0.entries, memberPred ctx cl nameN typesId e2 = false) :
    ((find_method_nocache ctx cl name argSigs retSig).1).isSome = true
    ∧ ((find_field_nocache ctx cl name fieldSig).1).isSome = true
    ∧ ((find_method_cached ctx cl name argSigs retSig typesId slot).1).isSome
        = true
    ∧ ((find_field_cached ctx cl name fieldSig typesId slot).1).isSome = true
    ∧ (find_method_nocache ctx cl nameN argSigs retSig).1 = none
    ∧ (find_field_nocache ctx cl nameN fieldSig).1 = none
    ∧ (find_method_cached ctx cl nameN argSigs retSig typesId slot0).1 = none
    ∧ (find_field_cached ctx cl nameN fieldSig typesId slot0).1 = none := by
  have hbad2 : Char.ofNat 0 ∈ nameN.content.data := by
    simpa using hbad
  refine ⟨?_, ?_, ?_, ?_, ?_, ?_, ?_, ?_⟩
  · unfold find_method_nocache
    simp only [cstringNew, hn, hs, Bool.false_eq_true, if_neg]
    simp
  · unfold find_field_nocache
    simp only [cstringNew, hn, hfs, Bool.false_eq_true, if_neg]
    simp
  · exact find_member_slot_isSome ctx cl name typesId _ slot
      (methodProbe_isSome ctx cl name _ hn hs)
  · exact find_member_slot_isSome ctx cl name typesId _ slot
      (fieldProbe_isSome ctx cl name _ hn hfs)
  · unfold find_method_nocache
    simp [cstringNew, hbad2]
  · unfold find_field_nocache
    simp [cstringNew, hbad2]
  · exact find_member_slot_panic ctx cl nameN typesId _ slot0 hmiss0
      (by simp [methodProbe, cstringNew, hbad2])
  · exact find_member_slot_panic ctx cl nameN typesId _ slot0 hmiss0
      (by simp [fieldProbe, cstringNew, hbad2])

/-- Witness for C9: "foo" and the descriptors "()I" / "J" are NUL-free, so
all four lookup paths return a value; the name "a\x00b" holds an interior
NUL and makes every path that reaches `CString::new` panic. -/
theorem cstring_panic_conditions_witness :
    (name0.content.data.contains (Char.ofNat 0) = false
     ∧ (method_signature_of [] "I").data.contains (Char.ofNat 0) = false
     ∧ "J".data.contains (Char.ofNat 0) = false
     ∧ nameBad.content.data.contains (Char.ofNat 0) = true
     ∧ (∀ e2 ∈ (Slot.mk [] none).entries,
         memberPred ctx0 1 nameBad 5 e2 = false))
    ∧ (((find_method_nocache ctx0 1 name0 [] "I").1).isSome = true
       ∧ ((find_field_nocache ctx0 1 name0 "J").1).isSome = true
       ∧ ((find_method_cached ctx0 1 name0 [] "I" 5
            (Slot.mk [entry0] none)).1).isSome = true
       ∧ ((find_field_cached ctx0 1 name0 "J" 5
            (Slot.mk [entry0] none)).1).isSome = true
       ∧ (find_method_nocache ctx0 1 nameBad [] "I").1 = none
       ∧ (find_field_nocache ctx0 1 nameBad "J").1 = none
       ∧ (find_method_cached ctx0 1 nameBad [] "I" 5 (Slot.mk [] none)).1 = none
       ∧ (find_field_cached ctx0 1 nameBad "J" 5 (Slot.mk [] none)).1 = none) :=
  ⟨⟨by decide, by decide, by decide, by decide, by decide⟩,
   cstring_panic_conditions ctx0 1 name0 nameBad [] "I" "J" 5
     (Slot.mk [entry0] none) (Slot.mk [] none)
     (by decide) (by decide) (by decide) (by decide) (by decide)⟩
